import Mathlib

/-!
Verification development for the OpenMDAO-Framework repository.

We give a shallow embedding of the two source files the claims are about:

* `openmdao.main/src/openmdao/main/case.py` — the `Case` value object and the
  `flatten_obj` routine with its per-type registry of flatteners;
* `openmdao.lib/src/openmdao/lib/drivers/caseiterdriver.py` — the dispatcher
  step functions `_server_ready` and `_run_case` of `CaseIteratorDriver`.

Modelling conventions:
* Python dictionaries (`self._inputs`, `self._outputs`, `self._exprs`) are
  embedded as association lists in insertion order (the spec describes them as
  ordered mappings); keys are unique in every state the source can reach.
* Machine effects (reading a model value, setting a model value, evaluating an
  expression on a scope) are environment functions returning `Except String`,
  the error string standing for `str(exc)` of the raised Python exception.
* Python code paths that raise an exception that the function under study does
  not catch are modelled by an `Option`/`Except` result of the embedded
  function (`none`/`.error` = the call raises).
* Wall-clock values (`time.time()`) and fresh identifiers (`uuid1()`) are
  passed in as explicit arguments.
* Where the source interpolates a name between apostrophes inside an error
  message, the embedding drops the apostrophes; the surrounding text is kept.
-/

namespace OMF

/-- Python types relevant to the flattener registry of `case.py` and to the
`isinstance` test inside `_flatten_lst`. -/
inductive PyType where
  | tNoneType
  | tBool
  | tInt
  | tFloat
  | tBasestring
  | tStr
  | tUnicode
  | tList
  | tTuple
  | tArray
  | tObject
  | tCustom (tag : String)
deriving DecidableEq

/-- Python values that can appear as case input/output values.  `vFloat`
carries an opaque payload: no claim inspects float arithmetic, only the
type-directed dispatch.  `vMissing` is the module-level `_Missing = object()`
sentinel of `case.py`; `vObj tag` is an instance of a user type with no
registered flattener. -/
inductive PyVal where
  | vNone
  | vBool (b : Bool)
  | vInt (n : Int)
  | vFloat (bits : Nat)
  | vStr (s : String)
  | vUnicode (s : String)
  | vList (elems : List PyVal)
  | vTuple (elems : List PyVal)
  | vArray (elems : List PyVal)
  | vMissing
  | vObj (tag : String)

mutual

/-- Structural equality on embedded Python values (the `==` of the value
domain). -/
def pyValBeq : PyVal → PyVal → Bool
  | .vNone, .vNone => true
  | .vBool a, .vBool b => a == b
  | .vInt a, .vInt b => a == b
  | .vFloat a, .vFloat b => a == b
  | .vStr a, .vStr b => a == b
  | .vUnicode a, .vUnicode b => a == b
  | .vList a, .vList b => pyValListBeq a b
  | .vTuple a, .vTuple b => pyValListBeq a b
  | .vArray a, .vArray b => pyValListBeq a b
  | .vMissing, .vMissing => true
  | .vObj a, .vObj b => a == b
  | _, _ => false

/-- Elementwise equality of value lists. -/
def pyValListBeq : List PyVal → List PyVal → Bool
  | [], [] => true
  | a :: as, b :: bs => pyValBeq a b && pyValListBeq as bs
  | _, _ => false

end

instance : BEq PyVal := ⟨pyValBeq⟩

/-- `type(obj)` for the embedded values. -/
def ptype : PyVal → PyType
  | .vNone => .tNoneType
  | .vBool _ => .tBool
  | .vInt _ => .tInt
  | .vFloat _ => .tFloat
  | .vStr _ => .tStr
  | .vUnicode _ => .tUnicode
  | .vList _ => .tList
  | .vTuple _ => .tTuple
  | .vArray _ => .tArray
  | .vMissing => .tObject
  | .vObj tag => .tCustom tag

/-- `inspect.getmro(t)`: the type itself followed by its ancestor types in
most-derived-first order, as in Python 2. -/
def getmro : PyType → List PyType
  | .tNoneType => [.tNoneType, .tObject]
  | .tBool => [.tBool, .tInt, .tObject]
  | .tInt => [.tInt, .tObject]
  | .tFloat => [.tFloat, .tObject]
  | .tBasestring => [.tBasestring, .tObject]
  | .tStr => [.tStr, .tBasestring, .tObject]
  | .tUnicode => [.tUnicode, .tBasestring, .tObject]
  | .tList => [.tList, .tObject]
  | .tTuple => [.tTuple, .tObject]
  | .tArray => [.tArray, .tObject]
  | .tObject => [.tObject]
  | .tCustom tag => [.tCustom tag, .tObject]

/-- The two handler functions stored in the `flatteners` registry of
`case.py`: `_simpleflatten` and `_flatten_lst`. -/
inductive Flattener where
  | simple
  | seqFlat
deriving DecidableEq

/-- The module-level `flatteners` registry of `case.py`: exact-type lookup
table mapping int, float, str, unicode to `_simpleflatten` and list, tuple,
array to `_flatten_lst`. -/
def flatteners : PyType → Option Flattener
  | .tInt => some .simple
  | .tFloat => some .simple
  | .tStr => some .simple
  | .tUnicode => some .simple
  | .tList => some .seqFlat
  | .tTuple => some .seqFlat
  | .tArray => some .seqFlat
  | _ => none

/-- `isinstance(entry, (tuple, list, array))`, the test inside
`_recurse_flatten`; `isinstance` consults the mro. -/
def isSeqInstance (v : PyVal) : Bool :=
  (getmro (ptype v)).any fun t => t == .tTuple || t == .tList || t == .tArray

/-- The elements over which `_flatten_lst` iterates. -/
def seqElems : PyVal → List PyVal
  | .vList l => l
  | .vTuple l => l
  | .vArray l => l
  | _ => []

/-- `idxstr` of `_recurse_flatten`: the concatenation of one bracketed index
per nesting level. -/
def idxStr : List Nat → String
  | [] => ""
  | j :: rest => "[" ++ toString j ++ "]" ++ idxStr rest

mutual

/-- The inner helper `_recurse_flatten(ret, name, idx, lst)` of
`_flatten_lst`, with the accumulator made explicit in the result and the
enumeration position `i` passed along. -/
def recurseFlatten (name : String) (idx : List Nat) (i : Nat) :
    List PyVal → List (String × PyVal)
  | [] => []
  | entry :: rest =>
    (if isSeqInstance entry then
       recurseFlattenEntry name (idx ++ [i]) entry
     else
       [(name ++ idxStr (idx ++ [i]), entry)])
    ++ recurseFlatten name idx (i + 1) rest

/-- The recursive call of `_recurse_flatten` into a sequence entry,
iterating over its elements (reached only on `isinstance` sequences; the
final arm is dead). -/
def recurseFlattenEntry (name : String) (idx : List Nat) :
    PyVal → List (String × PyVal)
  | .vList l => recurseFlatten name idx 0 l
  | .vTuple l => recurseFlatten name idx 0 l
  | .vArray l => recurseFlatten name idx 0 l
  | _ => []

end

/-- `_flatten_lst(name, lst)` of `case.py`. -/
def flattenLst (name : String) (lst : PyVal) : List (String × PyVal) :=
  recurseFlatten name [] 0 (seqElems lst)

/-- Application of a registry entry to `(name, obj)`. -/
def applyFlattener : Flattener → String → PyVal → List (String × PyVal)
  | .simple, name, v => [(name, v)]
  | .seqFlat, name, v => flattenLst name v

/-- The loop `for klass in getmro(type(obj))[1:]` of `flatten_obj`: the first
ancestor type present in the registry. -/
def findRegistered : List PyType → Option Flattener
  | [] => none
  | t :: rest =>
    match flatteners t with
    | some f => some f
    | none => findRegistered rest

/-- `flatten_obj(name, obj)` of `case.py`: exact-type lookup in the
`flatteners` registry, then a walk of the ancestor types most-derived-first,
and an empty result when no handler is found. -/
def flatten_obj (name : String) (obj : PyVal) : List (String × PyVal) :=
  match flatteners (ptype obj) with
  | some f => applyFlattener f name obj
  | none =>
    match findRegistered (getmro (ptype obj)).tail with
    | some f => applyFlattener f name obj
    | none => []

mutual

/-- Claim-side description of flattening a nested sequence (C8): one pair per
leaf, the path extended with the bracketed index at each nesting level,
leaves in left-to-right order. -/
def specLeaves (path : String) (i : Nat) : List PyVal → List (String × PyVal)
  | [] => []
  | entry :: rest =>
    (if isSeqInstance entry then
       specLeavesEntry (path ++ "[" ++ toString i ++ "]") entry
     else
       [(path ++ "[" ++ toString i ++ "]", entry)])
    ++ specLeaves path (i + 1) rest

/-- Recursion of `specLeaves` into one sequence entry. -/
def specLeavesEntry (path : String) : PyVal → List (String × PyVal)
  | .vList l => specLeaves path 0 l
  | .vTuple l => specLeaves path 0 l
  | .vArray l => specLeaves path 0 l
  | _ => []

end

/-! ### The Case value object of `case.py` -/

/-- Modelled from the spec: `is_legal_name` from `openmdao.main.variable` is
not under `src/`; the spec distinguishes plain identifier paths (attribute
and index notation, legal as assignment targets) from general expressions.
We model the test as: nonempty and every character alphanumeric or one of
dot, underscore, brackets.  No claim depends on the exact predicate. -/
def is_legal_name (s : String) : Bool :=
  !s.isEmpty && s.data.all fun ch =>
    ch.isAlphanum || ch == '.' || ch == '_' || ch == '[' || ch == ']'

/-- The embedded `Case` object.  `inputs` is `self._inputs` (a dict, embedded
in insertion order), `outputs` is `self._outputs` (`None` until the first
`add_output`), `exprs` is the key set of `self._exprs` (names registered with
an `ExprEvaluator`). -/
structure PyCase where
  inputs : List (String × PyVal)
  outputs : Option (List (String × PyVal))
  exprs : List String
  max_retries : Option Int
  retries : Option Int
  label : String
  uuid : String
  parent_uuid : String
  timestamp : Nat
  msg : Option String

/-- Python truthiness of `self._outputs`: a non-`None`, nonempty dict. -/
def pyTruthyOuts : Option (List (String × PyVal)) → Bool
  | none => false
  | some outs => !outs.isEmpty

/-- `get_inputs(flatten)`: ordered `(name, value)` pairs, each value passed
through `flatten_obj` when `flatten` is true. -/
def get_inputs (c : PyCase) (flatten : Bool) : List (String × PyVal) :=
  if flatten then (c.inputs.map fun kv => flatten_obj kv.1 kv.2).flatten
  else c.inputs

/-- `get_outputs(flatten)`.  The source reads `self._outputs.items()`; it is
only reached with `_outputs` truthy, so the `None` case is arbitrary. -/
def get_outputs (c : PyCase) (flatten : Bool) : List (String × PyVal) :=
  let outs := c.outputs.getD []
  if flatten then (outs.map fun kv => flatten_obj kv.1 kv.2).flatten
  else outs

/-- The `iotype is None` branch of `items`: inputs before outputs, outputs
included only when `self._outputs` is truthy. -/
def itemsDefault (c : PyCase) (flatten : Bool) : List (String × PyVal) :=
  if pyTruthyOuts c.outputs then get_inputs c flatten ++ get_outputs c flatten
  else get_inputs c flatten

/-- `items(iotype, flatten)` of `Case`; an unrecognised `iotype` raises
`NameError`, embedded as `.error`. -/
def caseItems (c : PyCase) (iotype : Option String) (flatten : Bool) :
    Except String (List (String × PyVal)) :=
  match iotype with
  | none => .ok (itemsDefault c flatten)
  | some io =>
    if io == "in" then .ok (get_inputs c flatten)
    else if io == "out" then
      .ok (if pyTruthyOuts c.outputs then get_outputs c flatten else [])
    else .error ("invalid iotype arg (" ++ io ++ "). Must be in, out, or None")

/-- `keys(iotype, flatten)` of `Case`: the first components of `items`. -/
def caseKeys (c : PyCase) (iotype : Option String) (flatten : Bool) :
    Except String (List String) :=
  (caseItems c iotype flatten).map (List.map Prod.fst)

/-- `__len__` of `Case`: input count, plus output count when `_outputs` is
not `None`. -/
def caseLen (c : PyCase) : Nat :=
  match c.outputs with
  | none => c.inputs.length
  | some outs => c.inputs.length + outs.length

/-- The tuple comparison inside `__eq__`:
`selftup[0] == othertup[0] and selftup[1] == othertup[1]`. -/
def tupEq (p q : String × PyVal) : Bool :=
  p.1 == q.1 && pyValBeq p.2 q.2

/-- `__eq__` of `Case`.  The reference-identity fast path `self is other` is
subsumed by structural equality; nothing in the embedded comparison can
raise, so the `except: return False` clause has no effect here. -/
def caseEq (a b : PyCase) : Bool :=
  if a.msg != b.msg || a.label != b.label then false
  else if caseLen a != caseLen b then false
  else (List.zip (itemsDefault a true) (itemsDefault b true)).all
    fun pq => tupEq pq.1 pq.2

/-- Claim-side equality of C5: `msg` and `label` match and the flattened item
sequences are equal element-wise and of equal length, i.e. equal as lists. -/
def specCaseEq (a b : PyCase) : Bool :=
  a.msg == b.msg && a.label == b.label
    && itemsDefault a true == itemsDefault b true

/-- Python dict assignment `d[k] = v` on an insertion-ordered association
list: update in place when the key is present, else append. -/
def dictInsert (d : List (String × PyVal)) (k : String) (v : PyVal) :
    List (String × PyVal) :=
  if d.any (fun kv => kv.1 == k) then
    d.map fun kv => if kv.1 == k then (k, v) else kv
  else d ++ [(k, v)]

/-- `_register_expr(s)`: names failing `is_legal_name` get an
`ExprEvaluator`; we track the registered key set. -/
def registerExpr (exprs : List String) (s : String) : List String :=
  if is_legal_name s then exprs
  else if exprs.contains s then exprs else exprs ++ [s]

/-- `add_input(name, value)`. -/
def add_input (c : PyCase) (name : String) (v : PyVal) : PyCase :=
  { c with exprs := registerExpr c.exprs name,
           inputs := dictInsert c.inputs name v }

/-- `add_output(name, value)`; creates the `_outputs` dict on first use. -/
def add_output (c : PyCase) (name : String) (v : PyVal) : PyCase :=
  { c with exprs := registerExpr c.exprs name,
           outputs := some (match c.outputs with
                            | none => [(name, v)]
                            | some outs => dictInsert outs name v) }

/-- The `Case` constructor, with the fresh `uuid1()` and `time.time()` values
passed in.  `inputs` and `outputs` are added through `add_input`/`add_output`
as in `__init__` (an empty iterator leaves `_outputs` as `None`). -/
def mkCase (inputs outputs : List (String × PyVal))
    (max_retries retries : Option Int) (label uuid parent_uuid : String)
    (msg : Option String) (now : Nat) : PyCase :=
  let base : PyCase :=
    { inputs := [], outputs := none, exprs := [],
      max_retries := max_retries, retries := retries, label := label,
      uuid := uuid, parent_uuid := parent_uuid, timestamp := now, msg := msg }
  let withIns := inputs.foldl (fun c kv => add_input c kv.1 kv.2) base
  outputs.foldl (fun c kv => add_output c kv.1 kv.2) withIns

/-- The loop body of `subcase(names)`.  `self._inputs.get(name)` yields
`None` both for an absent key and for a stored `None`, so such names fall
through to the outputs mapping; with `_outputs` falsy, or with the name
absent from it, a `KeyError` is raised. -/
def subcaseLoop (c : PyCase) :
    List String → List (String × PyVal) → List (String × PyVal) →
    Except String (List (String × PyVal) × List (String × PyVal))
  | [], ins, outs => .ok (ins, outs)
  | name :: rest, ins, outs =>
    let fromOutputs : Except String (List (String × PyVal)) :=
      if pyTruthyOuts c.outputs then
        match (c.outputs.getD []).lookup name with
        | some w => .ok (outs ++ [(name, w)])
        | none => .error ("KeyError: " ++ name)
      else .error ("KeyError: " ++ name ++ " is not part of this Case")
    match c.inputs.lookup name with
    | some v =>
      if !pyValBeq v PyVal.vNone then subcaseLoop c rest (ins ++ [(name, v)]) outs
      else
        match fromOutputs with
        | .ok outs2 => subcaseLoop c rest ins outs2
        | .error e => .error e
    | none =>
      match fromOutputs with
      | .ok outs2 => subcaseLoop c rest ins outs2
      | .error e => .error e

/-- `subcase(names)` of `Case`: build a new case from the named entries,
carrying over `parent_uuid` and `max_retries` through the constructor and
then overwriting the new timestamp with `self.timestamp`.  `u` is the fresh
uuid drawn inside the constructor. -/
def subcase (c : PyCase) (names : List String) (u : String) :
    Except String PyCase :=
  match subcaseLoop c names [] [] with
  | .error e => .error e
  | .ok (ins, outs) =>
    let sc := mkCase ins outs c.max_retries none "" u c.parent_uuid none 0
    .ok { sc with timestamp := c.timestamp }

/-- The evaluation scope passed to `update_outputs`: `scope.get(name)` and
`expr.evaluate(scope)` either produce a value or raise (`.error` carries
`str(err)`). -/
structure Scope where
  get : String → Except String PyVal
  evalExpr : String → Except String PyVal

/-- One output evaluation inside `update_outputs`: when `self._exprs` is
truthy and holds the name, the stored evaluator is used, else `scope.get`. -/
def evalOut (sc : Scope) (exprs : List String) (name : String) :
    Except String PyVal :=
  if !exprs.isEmpty && exprs.contains name then sc.evalExpr name
  else sc.get name

/-- The message update on a failed output:
`str(err)` when `msg` is `None`, else `msg + " %s" % err`. -/
def appendErr (m : Option String) (e : String) : Option String :=
  some (match m with
        | none => e
        | some s => s ++ " " ++ e)

/-- The output loop of `update_outputs`, threading the message and the last
exception; each slot is overwritten with the evaluated value, or with the
`_Missing` sentinel on failure. -/
def updLoop (ev : String → Except String PyVal) :
    List (String × PyVal) → Option String → Option String →
    List (String × PyVal) × Option String × Option String
  | [], msg, le => ([], msg, le)
  | (name, _) :: rest, msg, le =>
    match ev name with
    | .ok v =>
      let r := updLoop ev rest msg le
      ((name, v) :: r.1, r.2)
    | .error e =>
      let r := updLoop ev rest (appendErr msg e) (some e)
      ((name, PyVal.vMissing) :: r.1, r.2)

/-- `update_outputs(scope, msg)` of `Case`: returns the updated case and the
`last_excpt` raised at the end (as the text of the wrapped error), `none`
when nothing is raised.  The timestamp is set on every invocation. -/
def update_outputs (c : PyCase) (sc : Scope) (msg : Option String)
    (now : Nat) : PyCase × Option String :=
  match c.outputs with
  | none => ({ c with msg := msg, timestamp := now }, none)
  | some outs =>
    let r := updLoop (evalOut sc c.exprs) outs msg none
    ({ c with outputs := some r.1, msg := r.2.1, timestamp := now }, r.2.2)

/-- `reset()` of `Case`: fails (attribute error on `None.keys()`) when no
output was ever added; otherwise clears `parent_uuid` and `retries`, takes
the fresh uuid, and sets every output slot to the `_Missing` sentinel. -/
def caseReset (c : PyCase) (newUuid : String) : Option PyCase :=
  match c.outputs with
  | none => none
  | some outs =>
    some { c with parent_uuid := "", uuid := newUuid, retries := none,
                  outputs := some (outs.map fun kv => (kv.1, PyVal.vMissing)) }

/-! ### The dispatcher of `caseiterdriver.py`

The claims concern the single-worker step functions `_run_case` and
`_server_ready`.  We embed the per-server slots of the driver
(`_server_states[server]`, `_server_cases[server]`, ...) for one fixed
server, the recorder as an append-only list, and a pending `_load_model`
request as a counter (in the source `_load_model` only enqueues a request
on the worker queue and returns `True`; it never raises).  In this driver
a case is the older triple form: `case.inputs` and `case.outputs` are lists
of `(name, index, value)`. -/

/-- The opaque `index` argument carried alongside a variable name. -/
abbrev PyIndex := Option (List Int)

/-- The worker FSM states `_EMPTY`, `_READY`, `_COMPLETE`, `_ERROR`. -/
inductive WState where
  | empty
  | ready
  | complete
  | error
deriving DecidableEq

/-- The case shape consumed by `CaseIteratorDriver`. -/
structure DCase where
  inputs : List (String × PyIndex × PyVal)
  outputs : List (String × PyIndex × PyVal)
  max_retries : Option Int
  retries : Option Int
  msg : Option String

/-- The environment of one dispatcher step: `get_pathname()`, the outcome of
each `model.set` (`_model_set`), of each `model.get` (`_model_get`), and the
exception slot `_exceptions[server]` read by `_model_status` after the
execute request (the `str` of the exception the model raised, or `none`). -/
structure DriverEnv where
  pathname : String
  setResult : String → PyIndex → PyVal → Except String Unit
  getResult : String → PyIndex → Except String PyVal
  execExc : Option String

/-- The dispatcher state for one fixed server, plus the driver traits
consulted by the step functions (`reload_model`, `max_retries`, `_stop`). -/
structure DriverState where
  server_state : WState
  server_case : Option DCase
  todo : List DCase
  rerun : List DCase
  iterRemaining : List DCase
  recorded : List DCase
  loadRequests : Nat
  stop : Bool
  reload_model : Bool
  max_retries : Int

/-- Python 2 truthiness of `case.max_retries`: `None` and `0` are falsy. -/
def pyTruthyInt : Option Int → Bool
  | none => false
  | some n => n != 0

/-- Python 2 truthiness of `case.msg`: `None` and the empty string are
falsy. -/
def pyTruthyStr : Option String → Bool
  | none => false
  | some s => !s.isEmpty

/-- Python 2 `<` between `retries` and `max_retries`, where either side may
be `None`: `None` sorts strictly below every int, and `None < None` is
false. -/
def pyLtOpt : Option Int → Option Int → Bool
  | none, none => false
  | none, some _ => true
  | some _, none => false
  | some a, some b => a < b

/-- `str(exc)` of the `ServerError` produced by
`self.raise_exception(msg, ServerError)`: the message prefixed with the
pathname of the raising component.  Modelled from the spec: `raise_exception`
comes from the `Component` base class, which is not under `src/`. -/
def serverErrorText (pathname msg : String) : String :=
  pathname ++ ": " ++ msg

/-- The input loop of `_run_case`: each `_model_set` failure is rewrapped as
`ServerError("Exception setting <name>: <exc>")` via `raise_exception`. -/
def setInputs (env : DriverEnv) :
    List (String × PyIndex × PyVal) → Except String Unit
  | [] => .ok ()
  | (name, index, value) :: rest =>
    match env.setResult name index value with
    | .ok _ => setInputs env rest
    | .error e =>
      .error (serverErrorText env.pathname
        ("Exception setting " ++ name ++ ": " ++ e))

/-- The first-attempt initialisation at the top of `_run_case`: when not a
rerun, a falsy `case.max_retries` is overwritten with the driver trait and
`retries` is set to 0. -/
def initRetries (driverMax : Int) (c : DCase) (rerun : Bool) : DCase :=
  if rerun then c
  else
    let c1 := if pyTruthyInt c.max_retries then c
              else { c with max_retries := some driverMax }
    { c1 with retries := some 0 }

/-- `_run_case(case, server, rerun)`.  The result is `none` when the body
raises an exception the source does not catch (`case.retries += 1` on a
`None` counter).  On a `ServerError` during setup the state goes to
`_ERROR`; the case is re-queued on `_rerun` with `retries` incremented when
`retries < max_retries`, else recorded with `msg` set to the error text. -/
def runCase (env : DriverEnv) (st : DriverState) (case0 : DCase)
    (rerun : Bool) : Option DriverState :=
  let c : DCase := { initRetries st.max_retries case0 rerun with msg := none }
  let st1 := { st with server_case := some c }
  match setInputs env c.inputs with
  | .ok _ => some { st1 with server_state := .complete }
  | .error m =>
    let st2 := { st1 with server_state := .error }
    if pyLtOpt c.retries c.max_retries then
      match c.retries with
      | some r =>
        let c2 := { c with retries := some (r + 1) }
        some { st2 with server_case := some c2, rerun := st2.rerun ++ [c2] }
      | none => none
    else
      let c2 := { c with msg := some m }
      some { st2 with server_case := some c2,
                      recorded := st2.recorded ++ [c2] }

/-- The output loop of the `_COMPLETE` branch of `_server_ready`: each slot
is refreshed from `_model_get`; a failing read keeps the old triple and
overwrites `case.msg` with the pathname-prefixed text. -/
def getOutputs (env : DriverEnv) :
    List (String × PyIndex × PyVal) → Option String →
    List (String × PyIndex × PyVal) × Option String
  | [], msg => ([], msg)
  | (name, index, value) :: rest, msg =>
    match env.getResult name index with
    | .ok newv =>
      let r := getOutputs env rest msg
      ((name, index, newv) :: r.1, r.2)
    | .error e =>
      let msg2 := some (env.pathname ++ ": Exception getting "
        ++ name ++ ": " ++ e)
      let r := getOutputs env rest msg2
      ((name, index, value) :: r.1, r.2)

/-- `_server_ready(server)`: one FSM step; returns the successor state and
the `in_use` flag, or `none` when the source would raise an uncaught
exception (reading `case.outputs` off a `None` case in `_COMPLETE`).
In this source `_load_model` only enqueues a request and returns `True`,
so the `except ServerError` arms around it never fire. -/
def serverReady (env : DriverEnv) (st : DriverState) :
    Option (DriverState × Bool) :=
  match st.server_state with
  | .empty =>
    some ({ st with loadRequests := st.loadRequests + 1,
                    server_state := .ready }, true)
  | .ready =>
    let inUse := !st.stop
    match st.todo with
    | c :: rest =>
      (runCase env { st with todo := rest } c false).map fun s => (s, inUse)
    | [] =>
      match st.rerun with
      | c :: rest =>
        (runCase env { st with rerun := rest } c true).map fun s => (s, inUse)
      | [] =>
        match st.iterRemaining with
        | c :: rest =>
          (runCase env { st with iterRemaining := rest } c false).map
            fun s => (s, inUse)
        | [] => some (st, false)
  | .complete =>
    match st.server_case with
    | none => none
    | some case0 =>
      let st1 := { st with server_case := none }
      let case1 :=
        match env.execExc with
        | none =>
          let r := getOutputs env case0.outputs case0.msg
          { case0 with outputs := r.1, msg := r.2 }
        | some e => { case0 with msg := some e }
      let st2 := { st1 with recorded := st1.recorded ++ [case1] }
      let st3 :=
        if !pyTruthyStr case1.msg then
          if st2.reload_model then
            { st2 with loadRequests := st2.loadRequests + 1 }
          else st2
        else { st2 with loadRequests := st2.loadRequests + 1 }
      some ({ st3 with server_state := .ready }, true)
  | .error =>
    some ({ st with server_case := none,
                    loadRequests := st.loadRequests + 1,
                    server_state := .ready }, true)

/-- The error text of a failed evaluation, `none` on success. -/
def errOf : Except String PyVal → Option String
  | .ok _ => none
  | .error e => some e

/-- Claim-side failure condition of `subcase` for one name (used in the
amended C6): the inputs dict lookup yields `None` (absent key or stored
`None` value) and the name is not a key of a truthy outputs mapping. -/
def subcaseFails (c : PyCase) (name : String) : Bool :=
  (match c.inputs.lookup name with
   | none => true
   | some v => pyValBeq v PyVal.vNone) &&
  !(pyTruthyOuts c.outputs && (c.outputs.getD []).any fun kv => kv.1 == name)

/-! ### Concrete sample objects used in witnesses and counterexamples -/

/-- A case holding a single input whose value is `None`. -/
def caseNoneInput : PyCase :=
  { inputs := [("x", PyVal.vNone)], outputs := none, exprs := [],
    max_retries := none, retries := none, label := "", uuid := "u0",
    parent_uuid := "p0", timestamp := 7, msg := none }

/-- A case holding the single input `x = [1, 2]`. -/
def caseListTwo : PyCase :=
  { inputs := [("x", PyVal.vList [PyVal.vInt 1, PyVal.vInt 2])],
    outputs := none, exprs := [], max_retries := none, retries := none,
    label := "", uuid := "uA", parent_uuid := "", timestamp := 0, msg := none }

/-- A case holding the single input `x = [1, 2, 3]`. -/
def caseListThree : PyCase :=
  { inputs := [("x", PyVal.vList [PyVal.vInt 1, PyVal.vInt 2, PyVal.vInt 3])],
    outputs := none, exprs := [], max_retries := none, retries := none,
    label := "", uuid := "uB", parent_uuid := "", timestamp := 0, msg := none }

/-- A case with one input and one output slot. -/
def caseInOut : PyCase :=
  { inputs := [("a", PyVal.vInt 4)], outputs := some [("b", PyVal.vMissing)],
    exprs := [], max_retries := some 2, retries := some 0, label := "L",
    uuid := "u1", parent_uuid := "p1", timestamp := 3, msg := none }

/-- A scope on which every lookup fails. -/
def scopeFail : Scope :=
  { get := fun n => .error ("no attribute " ++ n),
    evalExpr := fun n => .error ("cannot evaluate " ++ n) }

/-- A scope that returns the integer 5 for every name. -/
def scopeConst : Scope :=
  { get := fun _ => .ok (PyVal.vInt 5),
    evalExpr := fun _ => .ok (PyVal.vInt 5) }

/-- Driver environment where every remote operation succeeds. -/
def envOk : DriverEnv :=
  { pathname := "driver", setResult := fun _ _ _ => .ok (),
    getResult := fun _ _ => .ok (PyVal.vInt 5), execExc := none }

/-- Driver environment whose `_model_set` always fails. -/
def envSetFail : DriverEnv :=
  { pathname := "driver", setResult := fun _ _ _ => .error "boom",
    getResult := fun _ _ => .ok (PyVal.vInt 5), execExc := none }

/-- Driver environment whose model execution raised an exception. -/
def envExecFail : DriverEnv :=
  { pathname := "driver", setResult := fun _ _ _ => .ok (),
    getResult := fun _ _ => .ok (PyVal.vInt 5), execExc := some "model error" }

/-- A driver case with one input and one output slot. -/
def dcaseOne : DCase :=
  { inputs := [("a", none, PyVal.vInt 1)],
    outputs := [("y", none, PyVal.vMissing)],
    max_retries := none, retries := none, msg := none }

/-- A ready dispatcher state with empty queues. -/
def dstateReady : DriverState :=
  { server_state := .ready, server_case := none, todo := [], rerun := [],
    iterRemaining := [], recorded := [], loadRequests := 0, stop := false,
    reload_model := true, max_retries := 1 }

/-! ### Helper lemmas -/

theorem pyValBeq_iff (a b : PyVal) : pyValBeq a b = true ↔ a = b := by
  apply pyValBeq.induct (fun x y => pyValBeq x y = true ↔ x = y)
    (fun l1 l2 => pyValListBeq l1 l2 = true ↔ l1 = l2)
  case case12 =>
    intro t x h1 h2 h3 h4 h5 h6 h7 h8 h9 h10 h11
    cases t <;> cases x <;>
      first
        | exact (h1 rfl rfl).elim
        | exact (h10 rfl rfl).elim
        | exact (h2 _ _ rfl rfl).elim
        | exact (h3 _ _ rfl rfl).elim
        | exact (h4 _ _ rfl rfl).elim
        | exact (h5 _ _ rfl rfl).elim
        | exact (h6 _ _ rfl rfl).elim
        | exact (h7 _ _ rfl rfl).elim
        | exact (h8 _ _ rfl rfl).elim
        | exact (h9 _ _ rfl rfl).elim
        | exact (h11 _ _ rfl rfl).elim
        | simp [pyValBeq]
  case case15 =>
    intro t x hA hB
    cases t <;> cases x <;>
      first
        | exact (hA rfl rfl).elim
        | exact (hB _ _ _ _ rfl rfl).elim
        | simp [pyValListBeq]
  all_goals intros
  all_goals simp_all [pyValBeq, pyValListBeq]

theorem pyValListBeq_iff (l1 l2 : List PyVal) :
    pyValListBeq l1 l2 = true ↔ l1 = l2 := by
  induction l1 generalizing l2 with
  | nil => cases l2 <;> simp [pyValListBeq]
  | cons a as ih => cases l2 <;> simp [pyValListBeq, pyValBeq_iff, ih]

theorem seqElems_sizeOf_le (v : PyVal) : sizeOf (seqElems v) ≤ sizeOf v := by
  cases v <;> simp [seqElems]

theorem idxStr_append (idx : List Nat) (j : Nat) :
    idxStr (idx ++ [j]) = idxStr idx ++ ("[" ++ toString j ++ "]") := by
  induction idx with
  | nil => simp [idxStr]
  | cons k rest ih => simp [idxStr, ih, String.append_assoc]

theorem recurseFlatten_spec_aux (n : Nat) :
    ∀ (l : List PyVal), sizeOf l ≤ n → ∀ (name : String) (idx : List Nat)
      (i : Nat), recurseFlatten name idx i l = specLeaves (name ++ idxStr idx) i l := by
  induction n with
  | zero =>
    intro l h
    cases l <;> simp at h
  | succ n ih =>
    intro l hl name idx i
    match l with
    | [] => simp [recurseFlatten, specLeaves]
    | entry :: rest =>
      have hsz : sizeOf entry + sizeOf rest ≤ n := by
        have := List.cons.sizeOf_spec entry rest
        omega
      have hrest : sizeOf rest ≤ n := by omega
      have hentry : recurseFlattenEntry name (idx ++ [i]) entry
          = specLeavesEntry (name ++ idxStr idx ++ "[" ++ toString i ++ "]")
              entry := by
        cases entry <;> simp [recurseFlattenEntry, specLeavesEntry]
        all_goals
          rename_i l2
          have h2 : sizeOf l2 ≤ n := by
            simp at hsz
            omega
          rw [ih l2 h2 name (idx ++ [i]) 0, idxStr_append]
          simp [String.append_assoc]
      rw [recurseFlatten, specLeaves]
      rw [ih rest hrest name idx (i + 1)]
      rw [hentry]
      rw [idxStr_append]
      simp [String.append_assoc]

theorem recurseFlatten_eq_specLeaves (name : String) (idx : List Nat)
    (i : Nat) (l : List PyVal) :
    recurseFlatten name idx i l = specLeaves (name ++ idxStr idx) i l :=
  recurseFlatten_spec_aux (sizeOf l) l le_rfl name idx i

/-- C8: `flatten_obj` on scalar numerics and strings (including `bool`,
reached through the ancestor walk) yields the singleton pair; on list,
tuple and array values it yields exactly the claim-side leaf enumeration with
bracketed index paths; on values of any unhandled type it yields `[]`. -/
theorem claim_C8_flatten_obj :
    (∀ name (n : Int), flatten_obj name (.vInt n) = [(name, .vInt n)])
  ∧ (∀ name (b : Bool), flatten_obj name (.vBool b) = [(name, .vBool b)])
  ∧ (∀ name (bits : Nat), flatten_obj name (.vFloat bits) = [(name, .vFloat bits)])
  ∧ (∀ name s, flatten_obj name (.vStr s) = [(name, .vStr s)])
  ∧ (∀ name s, flatten_obj name (.vUnicode s) = [(name, .vUnicode s)])
  ∧ (∀ name l, flatten_obj name (.vList l) = specLeaves name 0 l)
  ∧ (∀ name l, flatten_obj name (.vTuple l) = specLeaves name 0 l)
  ∧ (∀ name l, flatten_obj name (.vArray l) = specLeaves name 0 l)
  ∧ (∀ name, flatten_obj name .vNone = [])
  ∧ (∀ name, flatten_obj name .vMissing = [])
  ∧ (∀ name tag, flatten_obj name (.vObj tag) = []) := by
  refine ⟨?_, ?_, ?_, ?_, ?_, ?_, ?_, ?_, ?_, ?_, ?_⟩ <;> intro name
  all_goals try intro x
  all_goals try (rfl)
  all_goals
    have h := recurseFlatten_eq_specLeaves name [] 0 x
    simpa [flatten_obj, ptype, flatteners, applyFlattener, flattenLst,
      seqElems, idxStr] using h

theorem updLoop_spec (ev : String → Except String PyVal)
    (outs : List (String × PyVal)) : ∀ (msg le : Option String),
    updLoop ev outs msg le =
      (outs.map fun nv => (nv.1, match ev nv.1 with
                                 | .ok v => v
                                 | .error _ => PyVal.vMissing),
       (outs.filterMap fun nv => errOf (ev nv.1)).foldl appendErr msg,
       (outs.filterMap fun nv => errOf (ev nv.1)).foldl (fun _ e => some e) le) := by
  induction outs with
  | nil => intro msg le; rfl
  | cons nv rest ih =>
    intro msg le
    obtain ⟨name, old⟩ := nv
    cases hev : ev name with
    | ok v => simp [updLoop, hev, ih, errOf]
    | error e => simp [updLoop, hev, ih, errOf]

theorem foldl_some_or (l : List String) :
    ∀ init : Option String, l.foldl (fun _ e => some e) init = l.getLast?.or init := by
  induction l with
  | nil => intro init; simp
  | cons a rest ih =>
    intro init
    rw [List.foldl_cons, ih (some a)]
    cases rest with
    | nil => simp
    | cons b bs =>
      rw [List.getLast?_cons_cons]
      have hs : ((b :: bs).getLast?).isSome := by
        rw [List.getLast?_isSome]
        simp
      obtain ⟨x, hx⟩ := Option.isSome_iff_exists.mp hs
      rw [hx]
      rfl

/-- C10: `reset()` requires at least one output: with `_outputs` still the
`None` sentinel it raises (iterating `None.keys()`); with outputs present it
clears `parent_uuid` and `retries`, installs the fresh uuid, sets every
output slot to the `_Missing` sentinel, and leaves inputs, label,
`max_retries` and `msg` unchanged. -/
theorem claim_C10_reset :
    (∀ c u, c.outputs = none → caseReset c u = none)
  ∧ (∀ c u outs, c.outputs = some outs →
      caseReset c u = some { c with
        parent_uuid := "", uuid := u, retries := none,
        outputs := some (outs.map fun kv => (kv.1, PyVal.vMissing)) }) := by
  constructor
  · intro c u h
    simp [caseReset, h]
  · intro c u outs h
    simp [caseReset, h]

theorem claim_C10_reset_witness :
    caseReset caseNoneInput "u8" = none
  ∧ caseReset caseInOut "u9" = some { caseInOut with
      parent_uuid := "", uuid := "u9", retries := none,
      outputs := some [("b", PyVal.vMissing)] } := by
  constructor
  · exact claim_C10_reset.1 caseNoneInput "u8" rfl
  · exact (claim_C10_reset.2 caseInOut "u9" [("b", PyVal.vMissing)] rfl).trans (by rfl)

/-- C4: `update_outputs` updates the timestamp on every invocation; with an
outputs mapping present it attempts every registered output, storing the
evaluated value on success and the `_Missing` sentinel on failure, folds the
error texts into `msg` in order, and raises exactly when at least one output
failed, surfacing the last such error only after all outputs have been
processed. -/
theorem claim_C4_update_outputs :
    (∀ c sc msg0 now, (update_outputs c sc msg0 now).1.timestamp = now)
  ∧ (∀ (c : PyCase) (sc : Scope) (msg0 : Option String) (now : Nat)
       (outs : List (String × PyVal)), c.outputs = some outs →
      (update_outputs c sc msg0 now).1.outputs
          = some (outs.map fun nv => (nv.1,
              match evalOut sc c.exprs nv.1 with
              | .ok v => v
              | .error _ => PyVal.vMissing))
      ∧ (update_outputs c sc msg0 now).1.msg
          = (outs.filterMap fun nv => errOf (evalOut sc c.exprs nv.1)).foldl
              appendErr msg0
      ∧ (update_outputs c sc msg0 now).2
          = (outs.filterMap fun nv => errOf (evalOut sc c.exprs nv.1)).getLast?
      ∧ ((update_outputs c sc msg0 now).2.isSome
          ↔ ∃ nv ∈ outs, ∃ e, evalOut sc c.exprs nv.1 = .error e)) := by
  constructor
  · intro c sc msg0 now
    cases h : c.outputs <;> simp [update_outputs, h]
  · intro c sc msg0 now outs h
    have hu := updLoop_spec (evalOut sc c.exprs) outs msg0 none
    have hlast := foldl_some_or
      (outs.filterMap fun nv => errOf (evalOut sc c.exprs nv.1)) none
    refine ⟨?_, ?_, ?_, ?_⟩
    · simp [update_outputs, h, hu]
    · simp [update_outputs, h, hu]
    · simp [update_outputs, h, hu, hlast]
    · rw [update_outputs]
      simp only [h, hu, hlast]
      simp only [Option.or_none, List.getLast?_isSome]
      constructor
      · intro hne
        obtain ⟨e, he⟩ := List.exists_mem_of_ne_nil _ hne
        have := List.mem_filterMap.mp he
        obtain ⟨nv, hnv, herr⟩ := this
        refine ⟨nv, hnv, ?_⟩
        cases hev : evalOut sc c.exprs nv.1 with
        | ok v => rw [hev] at herr; simp [errOf] at herr
        | error e2 => exact ⟨e2, rfl⟩
      · rintro ⟨nv, hnv, e, he⟩
        intro hnil
        rw [List.filterMap_eq_nil_iff] at hnil
        have := hnil nv hnv
        rw [he] at this
        simp [errOf] at this

theorem claim_C4_update_outputs_witness :
    (update_outputs caseInOut scopeFail none 42).1.timestamp = 42
  ∧ (update_outputs caseInOut scopeFail none 42).1.outputs
      = some [("b", PyVal.vMissing)]
  ∧ (update_outputs caseInOut scopeFail none 42).2
      = some "no attribute b" := by
  have h := claim_C4_update_outputs.2 caseInOut scopeFail none 42
    [("b", PyVal.vMissing)] rfl
  exact ⟨claim_C4_update_outputs.1 caseInOut scopeFail none 42,
    h.1.trans (by rfl), h.2.2.1.trans (by rfl)⟩

theorem tupEq_iff (p q : String × PyVal) : tupEq p q = true ↔ p = q := by
  simp [tupEq, pyValBeq_iff, Prod.ext_iff]

theorem zipAll_tupEq_iff (l1 l2 : List (String × PyVal)) :
    ((List.zip l1 l2).all fun pq => tupEq pq.1 pq.2) = true ↔
      (∀ i, i < l1.length → i < l2.length → l1[i]? = l2[i]?) := by
  rw [List.all_eq_true]
  constructor
  · intro h i h1 h2
    have hiz : i < (List.zip l1 l2).length := by
      rw [List.length_zip]
      omega
    have hmem := List.getElem_mem hiz
    have htup := h _ hmem
    rw [List.getElem_zip] at htup
    have := (tupEq_iff _ _).mp htup
    rw [List.getElem?_eq_getElem h1, List.getElem?_eq_getElem h2]
    exact congrArg some this
  · intro h x hx
    obtain ⟨i, hi, hxe⟩ := List.mem_iff_getElem.mp hx
    rw [List.length_zip] at hi
    have h1 : i < l1.length := by omega
    have h2 : i < l2.length := by omega
    have hp := h i h1 h2
    rw [List.getElem?_eq_getElem h1, List.getElem?_eq_getElem h2] at hp
    rw [← hxe, List.getElem_zip]
    apply (tupEq_iff _ _).mpr
    simpa using hp

/-- C5 counterexample: a case with input `x = [1, 2]` and a case with input
`x = [1, 2, 3]` compare equal under `__eq__` (their unflattened lengths are
both 1 and `zip` truncates the flattened sequences to the shorter), yet
their flattened item sequences are neither element-wise equal nor of equal
length, so the claimed characterisation of `__eq__` is false here. -/
theorem claim_C5_counterexample :
    caseEq caseListTwo caseListThree = true
  ∧ specCaseEq caseListTwo caseListThree = false := by
  constructor <;> rfl

/-- C5 (amended): two cases compare equal under `__eq__` iff `msg` and
`label` match, the unflattened entry counts (inputs plus outputs) agree, and
the flattened item sequences agree pointwise up to the shorter of the two
lengths; the flattened lengths themselves are not compared. -/
theorem claim_C5_amended (a b : PyCase) :
    caseEq a b = true ↔
      (a.msg = b.msg ∧ a.label = b.label ∧ caseLen a = caseLen b
       ∧ ∀ i, i < (itemsDefault a true).length →
           i < (itemsDefault b true).length →
           (itemsDefault a true)[i]? = (itemsDefault b true)[i]?) := by
  rw [caseEq]
  split
  next hcond =>
    simp only [bne_iff_ne, Bool.or_eq_true, ne_eq] at hcond
    simp only [Bool.false_eq_true, false_iff]
    rintro ⟨h1, h2, _⟩
    rcases hcond with h | h
    · exact h h1
    · exact h h2
  next hcond =>
    simp only [bne_iff_ne, Bool.or_eq_true, ne_eq, not_or, not_not] at hcond
    split
    next hlen =>
      simp only [bne_iff_ne, ne_eq] at hlen
      simp only [Bool.false_eq_true, false_iff]
      rintro ⟨_, _, h3, _⟩
      exact hlen h3
    next hlen =>
      simp only [bne_iff_ne, ne_eq, not_not] at hlen
      rw [zipAll_tupEq_iff]
      constructor
      · intro h
        exact ⟨hcond.1, hcond.2, hlen, h⟩
      · rintro ⟨_, _, _, h⟩
        exact h

theorem claim_C5_amended_witness :
    caseEq caseListTwo caseListTwo = true :=
  (claim_C5_amended caseListTwo caseListTwo).mpr
    ⟨rfl, rfl, rfl, fun _ _ _ => rfl⟩

theorem lookup_isSome_iff_any {α : Type} (l : List (String × α)) (k : String) :
    (l.lookup k).isSome = l.any fun kv => kv.1 == k := by
  induction l with
  | nil => rfl
  | cons kv rest ih =>
    obtain ⟨k2, v⟩ := kv
    by_cases h : k2 = k
    · subst h
      simp [List.lookup]
    · have h1 : (k == k2) = false := beq_eq_false_iff_ne.mpr (Ne.symm h)
      have h2 : (k2 == k) = false := beq_eq_false_iff_ne.mpr h
      simp [List.lookup, h1, h2, ih]

theorem lookup_of_mem_nodup {α : Type} {l : List (String × α)}
    (hnd : (l.map Prod.fst).Nodup) {p : String × α} (hp : p ∈ l) :
    l.lookup p.1 = some p.2 := by
  induction l with
  | nil => simp at hp
  | cons kv rest ih =>
    rcases List.mem_cons.mp hp with h | h
    · subst h
      simp [List.lookup]
    · have hk : kv.1 ≠ p.1 := by
        intro he
        have : p.1 ∈ rest.map Prod.fst := List.mem_map_of_mem Prod.fst h
        rw [List.map_cons, List.nodup_cons] at hnd
        exact hnd.1 (he ▸ this)
      have hb : (p.1 == kv.1) = false := beq_eq_false_iff_ne.mpr (Ne.symm hk)
      rw [List.map_cons, List.nodup_cons] at hnd
      simp [List.lookup, hb, ih hnd.2 h]

theorem lookup_eq_none_of_not_mem {α : Type} {l : List (String × α)}
    {k : String} (h : k ∉ l.map Prod.fst) : l.lookup k = none := by
  induction l with
  | nil => rfl
  | cons kv rest ih =>
    rw [List.map_cons, List.mem_cons] at h
    push_neg at h
    have hb : (k == kv.1) = false := beq_eq_false_iff_ne.mpr h.1
    simp [List.lookup, hb, ih h.2]

theorem subcaseLoop_isOk_iff (c : PyCase) :
    ∀ (names : List String) (ins outs : List (String × PyVal)),
      (subcaseLoop c names ins outs).isOk = true
        ↔ ∀ n ∈ names, subcaseFails c n = false := by
  intro names
  induction names with
  | nil => intro ins outs; simp [subcaseLoop, Except.isOk, Except.toBool]
  | cons name rest ih =>
    intro ins outs
    rw [subcaseLoop]
    cases hin : c.inputs.lookup name with
    | some v =>
      cases hb : pyValBeq v PyVal.vNone with
      | false =>
        have hf : subcaseFails c name = false := by
          simp [subcaseFails, hin, hb]
        simp [hb, ih, hf]
      | true =>
        by_cases ht : pyTruthyOuts c.outputs = true
        · cases hout : (c.outputs.getD []).lookup name with
          | some w =>
            have hany : ((c.outputs.getD []).any fun kv => kv.1 == name)
                = true := by
              have h2 := lookup_isSome_iff_any (c.outputs.getD []) name
              rw [hout] at h2
              exact h2.symm
            have hf : subcaseFails c name = false := by
              simp [subcaseFails, hin, hb, ht, hany]
            simp [hb, ht, hout, ih, hf]
          | none =>
            have hany : ((c.outputs.getD []).any fun kv => kv.1 == name)
                = false := by
              have h2 := lookup_isSome_iff_any (c.outputs.getD []) name
              rw [hout] at h2
              exact h2.symm
            have hf : subcaseFails c name = true := by
              simp [subcaseFails, hin, hb, ht, hany]
            simp [hb, ht, hout, hf, Except.isOk, Except.toBool]
        · have ht2 : pyTruthyOuts c.outputs = false := by
            cases h2 : pyTruthyOuts c.outputs
            · rfl
            · exact absurd h2 ht
          have hf : subcaseFails c name = true := by
            simp [subcaseFails, hin, hb, ht2]
          simp [hb, ht2, hf, Except.isOk, Except.toBool]
    | none =>
      by_cases ht : pyTruthyOuts c.outputs = true
      · cases hout : (c.outputs.getD []).lookup name with
        | some w =>
          have hany : ((c.outputs.getD []).any fun kv => kv.1 == name)
              = true := by
            have h2 := lookup_isSome_iff_any (c.outputs.getD []) name
            rw [hout] at h2
            exact h2.symm
          have hf : subcaseFails c name = false := by
            simp [subcaseFails, hin, ht, hany]
          simp [ht, hout, ih, hf]
        | none =>
          have hany : ((c.outputs.getD []).any fun kv => kv.1 == name)
              = false := by
            have h2 := lookup_isSome_iff_any (c.outputs.getD []) name
            rw [hout] at h2
            exact h2.symm
          have hf : subcaseFails c name = true := by
            simp [subcaseFails, hin, ht, hany]
          simp [ht, hout, hf, Except.isOk, Except.toBool]
      · have ht2 : pyTruthyOuts c.outputs = false := by
          cases h2 : pyTruthyOuts c.outputs
          · rfl
          · exact absurd h2 ht
        have hf : subcaseFails c name = true := by
          simp [subcaseFails, hin, ht2]
        simp [ht2, hf, Except.isOk, Except.toBool]

theorem foldl_add_input_eq (l : List (String × PyVal)) :
    ∀ base : PyCase, l.foldl (fun c kv => add_input c kv.1 kv.2) base
      = { base with
          exprs := l.foldl (fun e kv => registerExpr e kv.1) base.exprs,
          inputs := l.foldl (fun d kv => dictInsert d kv.1 kv.2) base.inputs } := by
  induction l with
  | nil => intro base; rfl
  | cons kv rest ih =>
    intro base
    rw [List.foldl_cons, ih]
    rfl

theorem foldl_add_output_eq (l : List (String × PyVal)) :
    ∀ base : PyCase, l.foldl (fun c kv => add_output c kv.1 kv.2) base
      = { base with
          exprs := l.foldl (fun e kv => registerExpr e kv.1) base.exprs,
          outputs := l.foldl (fun o kv => some (match o with
            | none => [(kv.1, kv.2)]
            | some d => dictInsert d kv.1 kv.2)) base.outputs } := by
  induction l with
  | nil => intro base; rfl
  | cons kv rest ih =>
    intro base
    rw [List.foldl_cons, ih]
    rfl

theorem mkCase_eq (ins outs : List (String × PyVal)) (mr rt : Option Int)
    (lbl u pu : String) (m : Option String) (now : Nat) :
    mkCase ins outs mr rt lbl u pu m now =
      { inputs := ins.foldl (fun d kv => dictInsert d kv.1 kv.2) [],
        outputs := outs.foldl (fun o kv => some (match o with
          | none => [(kv.1, kv.2)]
          | some d => dictInsert d kv.1 kv.2)) none,
        exprs := outs.foldl (fun e kv => registerExpr e kv.1)
          (ins.foldl (fun e kv => registerExpr e kv.1) []),
        max_retries := mr, retries := rt, label := lbl, uuid := u,
        parent_uuid := pu, timestamp := now, msg := m } := by
  show (outs.foldl (fun c kv => add_output c kv.1 kv.2)
    (ins.foldl (fun c kv => add_input c kv.1 kv.2)
      { inputs := [], outputs := none, exprs := [],
        max_retries := mr, retries := rt, label := lbl,
        uuid := u, parent_uuid := pu, timestamp := now, msg := m })) = _
  rw [foldl_add_input_eq, foldl_add_output_eq]

/-- C6 counterexample: `subcase` fails on a requested name that *is* among
the inputs of the case, because the input value is `None` and
`self._inputs.get(name)` cannot distinguish a stored `None` from an absent
key; the claim said a key-not-found failure happens exactly for names not
among the input or output names. -/
theorem claim_C6_counterexample :
    subcase caseNoneInput ["x"] "u2"
        = Except.error ("KeyError: " ++ "x" ++ " is not part of this Case")
  ∧ "x" ∈ caseNoneInput.inputs.map Prod.fst := by
  constructor
  · rfl
  · simp [caseNoneInput]

/-- C6 (amended): `subcase(names)` fails with a key-not-found error exactly
when some requested name has an inputs-dict lookup of `None` (the key is
absent, or its stored value is `None`) and is not a key of a non-empty
outputs mapping; otherwise it returns a new case built from the named
entries, carrying over `parent_uuid`, `max_retries` and `timestamp` (with
`retries` reset to `None`). -/
theorem claim_C6_amended (c : PyCase) (names : List String) (u : String) :
    ((subcase c names u).isOk = false ↔ ∃ n ∈ names, subcaseFails c n = true)
  ∧ (∀ sc, subcase c names u = .ok sc →
      sc.parent_uuid = c.parent_uuid ∧ sc.max_retries = c.max_retries
        ∧ sc.timestamp = c.timestamp ∧ sc.retries = none) := by
  constructor
  · rw [subcase]
    cases hs : subcaseLoop c names [] [] with
    | error e =>
      have h2 : ¬ ∀ n ∈ names, subcaseFails c n = false := by
        rw [← subcaseLoop_isOk_iff c names [] [], hs]
        simp [Except.isOk, Except.toBool]
      push_neg at h2
      obtain ⟨n, hn, hfn⟩ := h2
      exact ⟨fun _ => ⟨n, hn, by simpa using hfn⟩, fun _ => rfl⟩
    | ok p =>
      have h2 := (subcaseLoop_isOk_iff c names [] []).mp (by rw [hs]; rfl)
      simp only [Except.isOk, Except.toBool]
      constructor
      · intro hfalse
        exact absurd hfalse (by simp)
      · rintro ⟨n, hn, hfn⟩
        rw [h2 n hn] at hfn
        exact absurd hfn (by simp)
  · intro sc hsc
    rw [subcase] at hsc
    cases hs : subcaseLoop c names [] [] with
    | error e => rw [hs] at hsc; exact absurd hsc (by simp)
    | ok p =>
      rw [hs] at hsc
      simp only [Except.ok.injEq] at hsc
      subst hsc
      have hf := mkCase_eq p.1 p.2 c.max_retries none "" u c.parent_uuid
        none 0
      simp [hf]

theorem claim_C6_amended_witness :
    ∃ sc, subcase caseInOut ["a", "b"] "u3" = Except.ok sc
      ∧ sc.parent_uuid = "p1" ∧ sc.max_retries = some 2 ∧ sc.timestamp = 3
      ∧ sc.retries = none := by
  have h := (claim_C6_amended caseInOut ["a", "b"] "u3").2
  refine ⟨{ inputs := [("a", PyVal.vInt 4)],
            outputs := some [("b", PyVal.vMissing)], exprs := [],
            max_retries := some 2, retries := none, label := "",
            uuid := "u3", parent_uuid := "p1", timestamp := 3,
            msg := none }, rfl, ?_⟩
  have h2 := h _ rfl
  exact ⟨h2.1.trans rfl, h2.2.1.trans rfl, h2.2.2.1.trans rfl, h2.2.2.2⟩

theorem subcaseLoop_inputs_phase (c : PyCase) (l0 : List (String × PyVal)) :
    ∀ (rest : List String) (ins outs : List (String × PyVal)),
      (∀ p ∈ l0, c.inputs.lookup p.1 = some p.2
        ∧ pyValBeq p.2 PyVal.vNone = false) →
      subcaseLoop c (l0.map Prod.fst ++ rest) ins outs
        = subcaseLoop c rest (ins ++ l0) outs := by
  induction l0 with
  | nil => intro rest ins outs _; simp
  | cons p l ih =>
    intro rest ins outs h
    have hp := h p (by simp)
    rw [List.map_cons, List.cons_append, subcaseLoop]
    simp only [hp.1, hp.2, Bool.not_false, if_true]
    rw [ih rest (ins ++ [(p.1, p.2)]) outs (fun q hq => h q (by simp [hq]))]
    simp

theorem subcaseLoop_outputs_phase (c : PyCase)
    (outsFull : List (String × PyVal)) (houts : c.outputs = some outsFull)
    (htruthy : pyTruthyOuts c.outputs = true) :
    ∀ (l0 ins outs : List (String × PyVal)),
      (∀ p ∈ l0, c.inputs.lookup p.1 = none
        ∧ outsFull.lookup p.1 = some p.2) →
      subcaseLoop c (l0.map Prod.fst) ins outs = .ok (ins, outs ++ l0) := by
  intro l0
  induction l0 with
  | nil => intro ins outs _; simp [subcaseLoop]
  | cons p l ih =>
    intro ins outs h
    have hp := h p (by simp)
    have htruthy2 : pyTruthyOuts (some outsFull) = true := by
      rw [← houts]
      exact htruthy
    rw [List.map_cons, subcaseLoop]
    simp only [hp.1, houts, Option.getD_some, hp.2, htruthy2, if_true]
    rw [ih ins (outs ++ [(p.1, p.2)]) (fun q hq => h q (by simp [hq]))]
    simp

theorem foldl_dictInsert_of_disjoint (l : List (String × PyVal)) :
    ∀ d, (∀ p ∈ l, (d.any fun kv => kv.1 == p.1) = false) →
      (l.map Prod.fst).Nodup →
      l.foldl (fun d2 kv => dictInsert d2 kv.1 kv.2) d = d ++ l := by
  induction l with
  | nil => intro d _ _; simp
  | cons p l ih =>
    intro d hdisj hnd
    rw [List.foldl_cons]
    have h1 : dictInsert d p.1 p.2 = d ++ [p] := by
      have hh := hdisj p (by simp)
      simp [dictInsert, hh]
    rw [h1]
    rw [List.map_cons, List.nodup_cons] at hnd
    have hdisj2 : ∀ q ∈ l, ((d ++ [p]).any fun kv => kv.1 == q.1) = false := by
      intro q hq
      rw [List.any_append]
      have h2 := hdisj q (by simp [hq])
      have hne : p.1 ≠ q.1 := by
        intro he
        exact hnd.1 (he ▸ List.mem_map_of_mem Prod.fst hq)
      have h3 : (([p]).any fun kv => kv.1 == q.1) = false := by
        simp [beq_eq_false_iff_ne.mpr hne]
      rw [h2, h3]
      rfl
    rw [ih (d ++ [p]) hdisj2 hnd.2]
    simp

theorem foldl_outInsert_some (l : List (String × PyVal)) :
    ∀ d, (∀ p ∈ l, (d.any fun kv => kv.1 == p.1) = false) →
      (l.map Prod.fst).Nodup →
      l.foldl (fun o kv => some (match o with
        | none => [(kv.1, kv.2)]
        | some d2 => dictInsert d2 kv.1 kv.2)) (some d) = some (d ++ l) := by
  induction l with
  | nil => intro d _ _; simp
  | cons p l ih =>
    intro d hdisj hnd
    rw [List.foldl_cons]
    have h1 : dictInsert d p.1 p.2 = d ++ [p] := by
      have hh := hdisj p (by simp)
      simp [dictInsert, hh]
    simp only [h1]
    rw [List.map_cons, List.nodup_cons] at hnd
    have hdisj2 : ∀ q ∈ l, ((d ++ [p]).any fun kv => kv.1 == q.1) = false := by
      intro q hq
      rw [List.any_append]
      have h2 := hdisj q (by simp [hq])
      have hne : p.1 ≠ q.1 := by
        intro he
        exact hnd.1 (he ▸ List.mem_map_of_mem Prod.fst hq)
      have h3 : (([p]).any fun kv => kv.1 == q.1) = false := by
        simp [beq_eq_false_iff_ne.mpr hne]
      rw [h2, h3]
      rfl
    rw [ih (d ++ [p]) hdisj2 hnd.2]
    simp

theorem foldl_outInsert_none (l : List (String × PyVal))
    (hnd : (l.map Prod.fst).Nodup) :
    l.foldl (fun o kv => some (match o with
      | none => [(kv.1, kv.2)]
      | some d2 => dictInsert d2 kv.1 kv.2)) none
      = if l.isEmpty then none else some l := by
  cases l with
  | nil => rfl
  | cons p l2 =>
    rw [List.foldl_cons]
    rw [List.map_cons, List.nodup_cons] at hnd
    have hdisj : ∀ q ∈ l2, (([(p.1, p.2)]).any fun kv => kv.1 == q.1) = false := by
      intro q hq
      have hne : p.1 ≠ q.1 := by
        intro he
        exact hnd.1 (he ▸ List.mem_map_of_mem Prod.fst hq)
      simp [beq_eq_false_iff_ne.mpr hne]
    have h2 := foldl_outInsert_some l2 [(p.1, p.2)] hdisj hnd.2
    simp only at h2 ⊢
    rw [h2]
    simp

/-- C7 counterexample: for the case with the single input `x = None`,
`C.subcase(C.keys())` raises a `KeyError` instead of returning a case, so
the round-trip `C.subcase(C.keys()).items() == C.items()` fails; the culprit
is again `self._inputs.get(name)` conflating a stored `None` with an absent
key. -/
theorem claim_C7_counterexample :
    caseKeys caseNoneInput none false = .ok ["x"]
  ∧ subcase caseNoneInput ["x"] "u5"
      = Except.error ("KeyError: " ++ "x" ++ " is not part of this Case") := by
  constructor <;> rfl

/-- C7 (amended): the round-trip `C.subcase(C.keys()).items() == C.items()`
holds (order-preserving, sentinel outputs preserved) for every case whose
input values are all distinct from `None` and whose input and output name
sets are disjoint (with the dict invariant of unique keys on each side);
with a `None`-valued input, or a name occurring on both sides, it can
fail. -/
theorem claim_C7_amended (c : PyCase) (u : String)
    (hndIn : (c.inputs.map Prod.fst).Nodup)
    (hndOut : ∀ outsF, c.outputs = some outsF → (outsF.map Prod.fst).Nodup)
    (hdisj : ∀ k ∈ c.inputs.map Prod.fst, ∀ outsF, c.outputs = some outsF →
      k ∉ outsF.map Prod.fst)
    (hnn : ∀ p ∈ c.inputs, pyValBeq p.2 PyVal.vNone = false) :
    ∃ ks sc, caseKeys c none false = .ok ks ∧ subcase c ks u = .ok sc
      ∧ caseItems sc none false = caseItems c none false := by
  have hInPhase : ∀ rest, subcaseLoop c (c.inputs.map Prod.fst ++ rest) [] []
      = subcaseLoop c rest c.inputs [] := by
    intro rest
    have h := subcaseLoop_inputs_phase c c.inputs rest [] []
      (fun p hp => ⟨lookup_of_mem_nodup hndIn hp, hnn p hp⟩)
    simpa using h
  have hInputsEq : c.inputs.foldl (fun d2 kv => dictInsert d2 kv.1 kv.2) []
      = c.inputs := by
    have h := foldl_dictInsert_of_disjoint c.inputs [] (fun p _ => rfl) hndIn
    simpa using h
  cases houts : c.outputs with
  | none =>
    have hsub : subcase c (c.inputs.map Prod.fst) u
        = .ok { mkCase c.inputs [] c.max_retries none "" u c.parent_uuid
            none 0 with timestamp := c.timestamp } := by
      rw [subcase]
      have h2 := hInPhase []
      simp only [List.append_nil] at h2
      rw [h2, subcaseLoop]
    refine ⟨c.inputs.map Prod.fst, _, ?_, hsub, ?_⟩
    · simp [caseKeys, caseItems, itemsDefault, houts, pyTruthyOuts,
        get_inputs, Except.map]
    · simp only [mkCase_eq, hInputsEq]
      simp [caseItems, itemsDefault, pyTruthyOuts, get_inputs, houts]
  | some outsF =>
    cases hOF : outsF with
    | nil =>
      subst hOF
      have htr : pyTruthyOuts c.outputs = false := by
        rw [houts]
        rfl
      have hsub : subcase c (c.inputs.map Prod.fst) u
          = .ok { mkCase c.inputs [] c.max_retries none "" u c.parent_uuid
              none 0 with timestamp := c.timestamp } := by
        rw [subcase]
        have h2 := hInPhase []
        simp only [List.append_nil] at h2
        rw [h2, subcaseLoop]
      refine ⟨c.inputs.map Prod.fst, _, ?_, hsub, ?_⟩
      · simp [caseKeys, caseItems, itemsDefault, htr, get_inputs, Except.map]
      · simp only [mkCase_eq, hInputsEq]
        simp [caseItems, itemsDefault, pyTruthyOuts, get_inputs, get_outputs,
          htr, houts]
    | cons o os =>
      have hne : outsF ≠ [] := by
        rw [hOF]
        exact List.cons_ne_nil o os
      have htr : pyTruthyOuts c.outputs = true := by
        rw [houts]
        simp [pyTruthyOuts, hne]
      have hndO := hndOut outsF houts
      have hOutPhase := subcaseLoop_outputs_phase c outsF houts htr outsF
        c.inputs []
        (fun p hp => ⟨lookup_eq_none_of_not_mem (fun hmem =>
            hdisj p.1 hmem outsF houts (List.mem_map_of_mem Prod.fst hp)),
          lookup_of_mem_nodup hndO hp⟩)
      have hOutsEq : outsF.foldl (fun o2 kv => some (match o2 with
          | none => [(kv.1, kv.2)]
          | some d2 => dictInsert d2 kv.1 kv.2)) none = some outsF := by
        rw [foldl_outInsert_none outsF hndO]
        simp [hne]
      clear hOF
      have htr2 : pyTruthyOuts (some outsF) = true := by
        rw [← houts]
        exact htr
      have hsub : subcase c (c.inputs.map Prod.fst ++ outsF.map Prod.fst) u
          = .ok { mkCase c.inputs outsF c.max_retries none "" u c.parent_uuid
              none 0 with timestamp := c.timestamp } := by
        rw [subcase, hInPhase (outsF.map Prod.fst), hOutPhase]
        simp
      refine ⟨c.inputs.map Prod.fst ++ outsF.map Prod.fst, _, ?_, hsub, ?_⟩
      · simp [caseKeys, caseItems, itemsDefault, htr, htr2, get_inputs,
          get_outputs, houts, Except.map]
      · simp only [mkCase_eq, hInputsEq, hOutsEq]
        simp [caseItems, itemsDefault, htr, htr2, get_inputs, get_outputs,
          houts]

theorem claim_C7_amended_witness :
    ∃ ks sc, caseKeys caseInOut none false = .ok ks
      ∧ subcase caseInOut ks "u4" = .ok sc
      ∧ caseItems sc none false = caseItems caseInOut none false := by
  apply claim_C7_amended caseInOut "u4"
  · simp [caseInOut]
  · intro outsF h
    simp only [caseInOut, Option.some.injEq] at h
    subst h
    simp
  · intro k hk outsF h
    simp only [caseInOut, Option.some.injEq] at h
    subst h
    simp only [caseInOut, List.map_cons, List.map_nil] at hk
    simp only [List.map_cons, List.map_nil, List.mem_singleton]
    simp at hk
    subst hk
    simp
  · intro p hp
    simp only [caseInOut, List.mem_singleton] at hp
    subst hp
    rfl

theorem initRetries_inputs (dm : Int) (c : DCase) (rr : Bool) :
    (initRetries dm c rr).inputs = c.inputs := by
  cases rr <;> by_cases h : pyTruthyInt c.max_retries = true <;>
    simp [initRetries, h]

/-- C2: in the `_READY` state with no stop pending, `_server_ready` takes
the next case from `todo` when it is non-empty, else from `rerun` when that
is non-empty (as a rerun), and advances the case iterator only when both
queues are empty; when all three sources are empty the worker is released
(`in_use` becomes false). -/
theorem claim_C2_case_selection (env : DriverEnv) (st : DriverState)
    (hready : st.server_state = .ready) (hstop : st.stop = false) :
    (∀ c rest, st.todo = c :: rest →
      serverReady env st
        = (runCase env { st with todo := rest } c false).map fun s => (s, true))
  ∧ (∀ c rest, st.todo = [] → st.rerun = c :: rest →
      serverReady env st
        = (runCase env { st with rerun := rest } c true).map fun s => (s, true))
  ∧ (∀ c rest, st.todo = [] → st.rerun = [] → st.iterRemaining = c :: rest →
      serverReady env st
        = (runCase env { st with iterRemaining := rest } c false).map
            fun s => (s, true))
  ∧ (st.todo = [] → st.rerun = [] → st.iterRemaining = [] →
      serverReady env st = some (st, false)) := by
  refine ⟨?_, ?_, ?_, ?_⟩
  · intro c rest h1
    simp [serverReady, hready, hstop, h1]
  · intro c rest h1 h2
    simp [serverReady, hready, hstop, h1, h2]
  · intro c rest h1 h2 h3
    simp [serverReady, hready, hstop, h1, h2, h3]
  · intro h1 h2 h3
    simp [serverReady, hready, hstop, h1, h2, h3]

theorem claim_C2_case_selection_witness :
    serverReady envOk { dstateReady with todo := [dcaseOne] }
      = (runCase envOk { dstateReady with todo := [] } dcaseOne false).map
          (fun s => (s, true))
  ∧ serverReady envOk dstateReady = some (dstateReady, false) := by
  have h := claim_C2_case_selection envOk
    { dstateReady with todo := [dcaseOne] } rfl rfl
  have h2 := claim_C2_case_selection envOk dstateReady rfl rfl
  exact ⟨h.1 dcaseOne [] rfl, h2.2.2.2 rfl rfl rfl⟩

/-- C3: after a completed model execution, the dispatcher records the case
and reloads the model exactly when the recorded case ends with a truthy
`msg` (a model exception or an output-read failure) or `reload_model` is
set — so a failed case forces a reload even with `reload_model` false, and
a clean one reloads only on request — and the FSM returns to `_READY`
unconditionally (in this source `_load_model` cannot raise `ServerError`,
so the exception arm never fires). -/
theorem claim_C3_reload (env : DriverEnv) (st : DriverState) (c : DCase)
    (hcomp : st.server_state = .complete) (hcase : st.server_case = some c) :
    ∃ c2, serverReady env st = some ({ st with
        server_state := .ready, server_case := none,
        recorded := st.recorded ++ [c2],
        loadRequests := st.loadRequests
          + (if pyTruthyStr c2.msg || st.reload_model then 1 else 0) }, true) := by
  refine ⟨(match env.execExc with
    | none => { c with outputs := (getOutputs env c.outputs c.msg).1,
                       msg := (getOutputs env c.outputs c.msg).2 }
    | some e => { c with msg := some e }), ?_⟩
  rw [serverReady]
  simp only [hcomp, hcase]
  cases hexc : env.execExc with
  | none =>
    cases hmsg : pyTruthyStr ((getOutputs env c.outputs c.msg).2) <;>
      cases hrel : st.reload_model <;>
        simp [hmsg, hrel]
  | some e =>
    cases hmsg : pyTruthyStr (some e) <;>
      cases hrel : st.reload_model <;>
        simp [hmsg, hrel]

theorem claim_C3_reload_witness :
    ∃ c2 st2, serverReady envExecFail { dstateReady with
        server_state := .complete, server_case := some dcaseOne }
      = some (st2, true)
      ∧ st2.server_state = .ready ∧ st2.server_case = none
      ∧ st2.recorded = [c2] := by
  obtain ⟨c2, hc2⟩ := claim_C3_reload envExecFail { dstateReady with
    server_state := .complete, server_case := some dcaseOne } dcaseOne rfl rfl
  exact ⟨c2, _, hc2, rfl, rfl, rfl⟩

/-- C1: retry asymmetry.  A case whose setup (a `_model_set` during
`_run_case`) raises `ServerError` is appended to `_rerun` with `retries`
incremented when `retries < max_retries`, and otherwise recorded with `msg`
set to the error text; a case whose model execution itself raised a
user-level exception is recorded from the `_COMPLETE` state with
`msg = str(exc)` and the rerun queue unchanged. -/
theorem claim_C1_retry_asymmetry :
    (∀ (env : DriverEnv) (st : DriverState) (case0 : DCase) (rr : Bool)
       (m : String) (c1 : DCase),
      c1 = { initRetries st.max_retries case0 rr with msg := none } →
      setInputs env case0.inputs = .error m →
      (∀ r, c1.retries = some r → pyLtOpt c1.retries c1.max_retries = true →
        runCase env st case0 rr = some { st with
          server_case := some { c1 with retries := some (r + 1) },
          server_state := .error,
          rerun := st.rerun ++ [{ c1 with retries := some (r + 1) }] })
      ∧ (pyLtOpt c1.retries c1.max_retries = false →
        runCase env st case0 rr = some { st with
          server_case := some { c1 with msg := some m },
          server_state := .error,
          recorded := st.recorded ++ [{ c1 with msg := some m }] }))
  ∧ (∀ (env : DriverEnv) (st : DriverState) (c : DCase) (e : String),
      st.server_state = .complete → st.server_case = some c →
      env.execExc = some e →
      ∃ st2, serverReady env st = some (st2, true)
        ∧ st2.recorded = st.recorded ++ [{ c with msg := some e }]
        ∧ st2.rerun = st.rerun) := by
  constructor
  · intro env st case0 rr m c1 hc1 hm
    have hset : setInputs env
        ({ initRetries st.max_retries case0 rr with
           msg := none } : DCase).inputs = .error m := by
      simpa [initRetries_inputs] using hm
    subst hc1
    constructor
    · intro r hr hlt
      have hr2 : (initRetries st.max_retries case0 rr).retries = some r := hr
      rw [runCase]
      simp only [hset]
      simp only [hlt, if_true]
      simp only [hr2]
    · intro hlt
      rw [runCase]
      simp only [hset, hlt, Bool.false_eq_true, if_false]
  · intro env st c e hcomp hcase hexc
    refine ⟨{ st with
        server_state := .ready, server_case := none,
        recorded := st.recorded ++ [{ c with msg := some e }],
        loadRequests := st.loadRequests
          + (if pyTruthyStr (some e) || st.reload_model then 1 else 0) },
      ?_, rfl, rfl⟩
    rw [serverReady]
    simp only [hcomp, hcase, hexc]
    cases hmsg : pyTruthyStr (some e) <;>
      cases hrel : st.reload_model <;>
        simp [hmsg, hrel]

theorem claim_C1_retry_asymmetry_witness :
    runCase envSetFail dstateReady dcaseOne false = some { dstateReady with
      server_case := some { dcaseOne with
        max_retries := some 1, retries := some 1, msg := none },
      server_state := .error,
      rerun := [{ dcaseOne with
        max_retries := some 1, retries := some 1, msg := none }] }
  ∧ ∃ st2, serverReady envExecFail { dstateReady with
        server_state := .complete, server_case := some dcaseOne }
        = some (st2, true)
      ∧ st2.recorded = [{ dcaseOne with msg := some "model error" }]
      ∧ st2.rerun = [] := by
  constructor
  · have h := claim_C1_retry_asymmetry.1 envSetFail dstateReady dcaseOne false
      ("driver" ++ ": Exception setting " ++ "a" ++ ": " ++ "boom")
      ({ dcaseOne with max_retries := some 1, retries := some 0, msg := none })
      rfl rfl
    exact (h.1 0 rfl rfl).trans (by rfl)
  · have h := claim_C1_retry_asymmetry.2 envExecFail { dstateReady with
      server_state := .complete, server_case := some dcaseOne }
      dcaseOne "model error" rfl rfl rfl
    obtain ⟨st2, h1, h2, h3⟩ := h
    exact ⟨st2, h1, h2.trans (by rfl), h3.trans (by rfl)⟩

/-- C9: on a first (non-rerun) attempt, `_run_case` overwrites a falsy
`case.max_retries` (`None` or 0) with the driver trait and sets `retries`
to 0; consequently a case constructed with `max_retries = 0` receives the
driver value and, when the driver allows at least one retry, a setup
failure still re-queues it on `_rerun`. -/
theorem claim_C9_first_attempt (env : DriverEnv) (st : DriverState)
    (case0 : DCase)
    (hmr : case0.max_retries = none ∨ case0.max_retries = some 0) :
    (initRetries st.max_retries case0 false).max_retries = some st.max_retries
  ∧ (initRetries st.max_retries case0 false).retries = some 0
  ∧ (∀ m, setInputs env case0.inputs = .error m → 1 ≤ st.max_retries →
      ∃ st2, runCase env st case0 false = some st2
        ∧ st2.rerun = st.rerun
            ++ [{ initRetries st.max_retries case0 false with
                  msg := none, retries := some 1 }]) := by
  have hfalsy : pyTruthyInt case0.max_retries = false := by
    rcases hmr with h | h <;> simp [pyTruthyInt, h]
  refine ⟨?_, ?_, ?_⟩
  · simp [initRetries, hfalsy]
  · simp [initRetries, hfalsy]
  · intro m hm hge
    have hset : setInputs env
        ({ initRetries st.max_retries case0 false with
           msg := none } : DCase).inputs = .error m := by
      simpa [initRetries_inputs] using hm
    have hr : ({ initRetries st.max_retries case0 false with
        msg := none } : DCase).retries = some 0 := by
      simp [initRetries, hfalsy]
    have hmr2 : ({ initRetries st.max_retries case0 false with
        msg := none } : DCase).max_retries = some st.max_retries := by
      simp [initRetries, hfalsy]
    have hlt : pyLtOpt
        ({ initRetries st.max_retries case0 false with
           msg := none } : DCase).retries
        ({ initRetries st.max_retries case0 false with
           msg := none } : DCase).max_retries = true := by
      rw [hr, hmr2]
      simp [pyLtOpt]
      omega
    have hr2 : (initRetries st.max_retries case0 false).retries = some 0 := hr
    refine ⟨{ st with
        server_case := some { initRetries st.max_retries case0 false with
          msg := none, retries := some 1 },
        server_state := .error,
        rerun := st.rerun ++ [{ initRetries st.max_retries case0 false with
          msg := none, retries := some 1 }] }, ?_, rfl⟩
    rw [runCase]
    simp only [hset]
    simp only [hlt, if_true]
    simp only [hr2]
    norm_num

theorem claim_C9_first_attempt_witness :
    (initRetries 1 dcaseOne false).max_retries = some 1
  ∧ (initRetries 1 dcaseOne false).retries = some 0
  ∧ ∃ st2, runCase envSetFail dstateReady dcaseOne false = some st2
      ∧ st2.rerun = [{ initRetries 1 dcaseOne false with
          msg := none, retries := some 1 }] := by
  have h := claim_C9_first_attempt envSetFail dstateReady dcaseOne
    (Or.inl rfl)
  refine ⟨h.1, h.2.1, ?_⟩
  obtain ⟨st2, h1, h2⟩ := h.2.2
    ("driver" ++ ": Exception setting " ++ "a" ++ ": " ++ "boom") rfl
    (by decide)
  exact ⟨st2, h1, h2.trans (by rfl)⟩

end OMF
